import Mathlib

/-!
Verification of the Email-sender repository.

The Python sources (`backend/ultra_simple_backend.py`, `backend/email_service.py`,
driven by `frontend/ultra_simple_app.py`) are shallowly embedded below.  Python
strings are modelled as `List Char`; the SQLite `email_history` table is
modelled as a list of rows in rowid (insertion) order; the external HTTP and
SMTP transports are modelled by passing their outcome as an explicit argument.
-/

namespace EmailSender

/-! ### Python string primitives

`pyFind`, `pyRfind`, `pySlice`, `pyStrip` and `pyContains` model the Python
`str` operations `find`, `rfind`, slicing, `strip()` and the `in` operator,
restricted to ASCII text (Python's `strip` and `isspace` also accept some
Unicode whitespace; the repository only manipulates ASCII markers). -/

/-- Index of the first occurrence of `pat` in the list, if any. -/
def findIdx? (pat : List Char) : List Char → Option Nat
  | [] => if pat.isEmpty then some 0 else none
  | c :: rest =>
    if pat.isPrefixOf (c :: rest) then some 0
    else (findIdx? pat rest).map Nat.succ

/-- Index of the last occurrence of `pat` in the list, if any
(an empty pattern matches at the very end, as in Python `rfind`). -/
def rfindIdx? (pat : List Char) : List Char → Option Nat
  | [] => if pat.isEmpty then some 0 else none
  | c :: rest =>
    match rfindIdx? pat rest with
    | some i => some (i + 1)
    | none => if pat.isPrefixOf (c :: rest) then some 0 else none

/-- Python `s.find(pat, start)`: first index `≥ start` where `pat` occurs, else `-1`. -/
def pyFind (s pat : List Char) (start : Nat) : Int :=
  match findIdx? pat (s.drop start) with
  | some i => ((start + i : Nat) : Int)
  | none => -1

/-- Python `s.rfind(pat)`: last index where `pat` occurs, else `-1`. -/
def pyRfind (s pat : List Char) : Int :=
  match rfindIdx? pat s with
  | some i => (i : Int)
  | none => -1

/-- Python substring containment `pat in s`. -/
def pyContains (pat s : List Char) : Bool :=
  (findIdx? pat s).isSome

/-- Python slice `s[a:b]` (negative indices count from the end, then both
bounds are clamped into `[0, len]`). -/
def pySlice (s : List Char) (a b : Int) : List Char :=
  let n : Int := (s.length : Int)
  let a' : Int := if a < 0 then a + n else a
  let b' : Int := if b < 0 then b + n else b
  (s.take (min b' n).toNat).drop (max a' 0).toNat

/-- The whitespace characters stripped by Python `str.strip()` (ASCII part). -/
def isPyWs (c : Char) : Bool :=
  c = ' ' || c = '\t' || c = '\n' || c = '\r' || c = '\x0b' || c = '\x0c'

/-- Python `s.strip()`. -/
def pyStrip (s : List Char) : List Char :=
  ((s.dropWhile isPyWs).reverse.dropWhile isPyWs).reverse

/-- The opening-brace character, written by code point to keep it out of string
literals. -/
def obChar : Char := '\x7b'

/-- The closing-brace character. -/
def cbChar : Char := '\x7d'

/-- The opening fence marker searched for by `process_requirements`
(three backticks followed by `json`). -/
def fenceJson : List Char := "\x60\x60\x60json".data

/-- A bare fence marker (three backticks). -/
def fence3 : List Char := "\x60\x60\x60".data

/-! ### Payload extraction (`process_requirements`, backend lines 126-136)

The source cleans the generation response before `json.loads`:
```
if '<fence>json' in response:
    json_start = response.find('<fence>json') + 7
    json_end = response.find('<fence>', json_start)
    json_str = response[json_start:json_end].strip()
elif '{' in response and '}' in response:
    json_start = response.find('{')
    json_end = response.rfind('}') + 1
    json_str = response[json_start:json_end]
else:
    json_str = response
```
-/

/-- The payload-selection step of `process_requirements`. -/
def extractPayload (response : List Char) : List Char :=
  if pyContains fenceJson response then
    let jsonStart : Int := pyFind response fenceJson 0 + 7
    let jsonEnd : Int := pyFind response fence3 jsonStart.toNat
    pyStrip (pySlice response jsonStart jsonEnd)
  else if pyContains [obChar] response && pyContains [cbChar] response then
    let jsonStart : Int := pyFind response [obChar] 0
    let jsonEnd : Int := pyRfind response [cbChar] + 1
    pySlice response jsonStart jsonEnd
  else
    response

/-! ### Spec-side description of the extraction (§4.1 of the spec)

`claimExtract` renders the claim exactly as worded: the payload is the content
strictly between the first opening fence and the next closing fence (undefined
when no closing fence follows), else the substring from the first `{` to the
last `}`, else the whole response.  `specExtract` is the amended description:
the fenced content is additionally stripped of surrounding whitespace, and
when no closing fence follows the payload is the content after the marker up
to but excluding the final character of the response, stripped. -/

/-- The part of `s` strictly after the first occurrence of `pat`, if any. -/
def afterFirst (pat : List Char) : List Char → Option (List Char)
  | [] => if pat.isEmpty then some [] else none
  | c :: rest =>
    if pat.isPrefixOf (c :: rest) then some ((c :: rest).drop pat.length)
    else afterFirst pat rest

/-- The part of `s` strictly before the first occurrence of `pat`, if any. -/
def beforeFirst (pat : List Char) : List Char → Option (List Char)
  | [] => if pat.isEmpty then some [] else none
  | c :: rest =>
    if pat.isPrefixOf (c :: rest) then some []
    else (beforeFirst pat rest).map (c :: ·)

/-- The suffix of `s` starting at the first occurrence of the character `c`
(empty when `c` does not occur). -/
def dropBeforeFirstChar (c : Char) (s : List Char) : List Char :=
  s.dropWhile (fun x => x != c)

/-- The prefix of `s` ending at the last occurrence of the character `c`
inclusive (empty when `c` does not occur). -/
def takeThroughLastChar (c : Char) (s : List Char) : List Char :=
  (s.reverse.dropWhile (fun x => x != c)).reverse

/-- C2 exactly as worded: partial, because the wording presupposes a closing
fence after the opening marker. -/
def claimExtract (response : List Char) : Option (List Char) :=
  match afterFirst fenceJson response with
  | some tail => beforeFirst fence3 tail
  | none =>
    if response.contains obChar && response.contains cbChar then
      some (takeThroughLastChar cbChar (dropBeforeFirstChar obChar response))
    else
      some response

/-- C2 as amended: fenced content is stripped, and a lone opening marker takes
the content up to but excluding the final character of the response. -/
def specExtract (response : List Char) : List Char :=
  match afterFirst fenceJson response with
  | some tail =>
    match beforeFirst fence3 tail with
    | some content => pyStrip content
    | none => pyStrip tail.dropLast
  | none =>
    if response.contains obChar && response.contains cbChar then
      takeThroughLastChar cbChar (dropBeforeFirstChar obChar response)
    else
      response

/-! ### Lemmas connecting the index-arithmetic extraction to the structural one -/

lemma findIdx?_bound {pat s : List Char} {i : Nat} (h : findIdx? pat s = some i) :
    i + pat.length ≤ s.length := by
  induction s generalizing i with
  | nil =>
    unfold findIdx? at h
    split at h
    · next hp =>
      simp only [Option.some.injEq] at h
      subst h
      simp [List.isEmpty_iff.mp hp]
    · exact absurd h (by simp)
  | cons c rest ih =>
    unfold findIdx? at h
    split at h
    · next hp =>
      simp only [Option.some.injEq] at h
      subst h
      have := (List.isPrefixOf_iff_prefix.mp hp).length_le
      simpa using this
    · simp only [Option.map_eq_some'] at h
      obtain ⟨m, hm, rfl⟩ := h
      have := ih hm
      simp only [List.length_cons]
      omega

lemma afterFirst_eq (pat s : List Char) :
    afterFirst pat s = (findIdx? pat s).map (fun i => s.drop (i + pat.length)) := by
  induction s with
  | nil =>
    unfold afterFirst findIdx?
    by_cases h : pat.isEmpty <;> simp [h]
  | cons c rest ih =>
    unfold afterFirst findIdx?
    by_cases hp : pat.isPrefixOf (c :: rest)
    · simp [hp]
    · simp only [hp, if_false, ih]
      cases h : findIdx? pat rest <;> simp [h, Nat.succ_add]

lemma beforeFirst_eq (pat s : List Char) :
    beforeFirst pat s = (findIdx? pat s).map (fun i => s.take i) := by
  induction s with
  | nil =>
    unfold beforeFirst findIdx?
    by_cases h : pat.isEmpty <;> simp [h]
  | cons c rest ih =>
    unfold beforeFirst findIdx?
    by_cases hp : pat.isPrefixOf (c :: rest)
    · simp [hp]
    · simp only [hp, if_false, ih]
      cases h : findIdx? pat rest <;> simp [h]

lemma singleton_isPrefixOf (c x : Char) (xs : List Char) :
    [c].isPrefixOf (x :: xs) = (c == x) := by
  simp [List.isPrefixOf]

lemma contains_eq_pyContains (c : Char) (s : List Char) :
    s.contains c = pyContains [c] s := by
  induction s with
  | nil => rfl
  | cons x xs ih =>
    simp only [pyContains] at *
    unfold findIdx?
    rw [singleton_isPrefixOf]
    by_cases hcx : c = x
    · simp [hcx, List.contains_cons]
    · have : (c == x) = false := by simp [hcx]
      simp [this, List.contains_cons, ← ih, hcx]

lemma dropWhile_neq_of_findIdx {c : Char} {s : List Char} {i : Nat}
    (h : findIdx? [c] s = some i) :
    s.dropWhile (fun x => x != c) = s.drop i := by
  induction s generalizing i with
  | nil => simp [findIdx?] at h
  | cons x xs ih =>
    unfold findIdx? at h
    rw [singleton_isPrefixOf] at h
    by_cases hcx : c = x
    · simp only [hcx, beq_self_eq_true, if_true, Option.some.injEq] at h
      subst h
      simp [List.dropWhile_cons, hcx]
    · have hne : (c == x) = false := by simp [hcx]
      simp only [hne, Bool.false_eq_true, if_false, Option.map_eq_some'] at h
      obtain ⟨m, hm, rfl⟩ := h
      have hxc : (x != c) = true := by simp [Ne.symm hcx]
      simp [List.dropWhile_cons, hxc, ih hm]

lemma rfindIdx?_bound {c : Char} {s : List Char} {j : Nat}
    (h : rfindIdx? [c] s = some j) : j < s.length := by
  induction s generalizing j with
  | nil => simp [rfindIdx?] at h
  | cons x xs ih =>
    cases hr : rfindIdx? [c] xs with
    | some m =>
      simp only [rfindIdx?, hr, Option.some.injEq] at h
      subst h
      have := ih hr
      simp only [List.length_cons]
      omega
    | none =>
      simp only [rfindIdx?, hr] at h
      rw [singleton_isPrefixOf] at h
      by_cases hcx : c = x
      · simp only [hcx, beq_self_eq_true, if_true, Option.some.injEq] at h
        subst h
        simp
      · have : (c == x) = false := by simp [hcx]
        simp [this] at h

lemma rfind_mem {c : Char} {s : List Char} {j : Nat}
    (h : rfindIdx? [c] s = some j) : c ∈ s := by
  induction s generalizing j with
  | nil => simp [rfindIdx?] at h
  | cons x xs ih =>
    cases hr : rfindIdx? [c] xs with
    | some m => exact List.mem_cons_of_mem x (ih hr)
    | none =>
      simp only [rfindIdx?, hr] at h
      rw [singleton_isPrefixOf] at h
      by_cases hcx : c = x
      · simp [hcx]
      · have : (c == x) = false := by simp [hcx]
        simp [this] at h

lemma rfind_none_notMem {c : Char} {s : List Char}
    (h : rfindIdx? [c] s = none) : c ∉ s := by
  induction s with
  | nil => simp
  | cons x xs ih =>
    cases hr : rfindIdx? [c] xs with
    | some m => simp [rfindIdx?, hr] at h
    | none =>
      simp only [rfindIdx?, hr] at h
      rw [singleton_isPrefixOf] at h
      intro hmem
      rcases List.mem_cons.mp hmem with h1 | h2
      · rw [h1] at h
        simp at h
      · exact ih hr h2

lemma rfind_isSome_of_mem {c : Char} {s : List Char} (h : c ∈ s) :
    (rfindIdx? [c] s).isSome := by
  cases hr : rfindIdx? [c] s with
  | some j => simp
  | none => exact absurd h (rfind_none_notMem hr)

lemma dropWhile_ne_nil_of_mem {c : Char} {l : List Char} (h : c ∈ l) :
    l.dropWhile (fun x => x != c) ≠ [] := by
  rw [Ne, List.dropWhile_eq_nil_iff]
  intro hall
  have := hall c h
  simp at this

lemma takeThroughLast_of_rfind {c : Char} {s : List Char} {j : Nat}
    (h : rfindIdx? [c] s = some j) :
    takeThroughLastChar c s = s.take (j + 1) := by
  induction s generalizing j with
  | nil => simp [rfindIdx?] at h
  | cons x xs ih =>
    cases hr : rfindIdx? [c] xs with
    | some m =>
      simp only [rfindIdx?, hr, Option.some.injEq] at h
      subst h
      have hne : xs.reverse.dropWhile (fun y => y != c) ≠ [] :=
        dropWhile_ne_nil_of_mem (List.mem_reverse.mpr (rfind_mem hr))
      unfold takeThroughLastChar at ih ⊢
      rw [List.reverse_cons, List.dropWhile_append]
      have hne' : (xs.reverse.dropWhile (fun y => y != c)).isEmpty = false := by
        simpa [List.isEmpty_iff] using hne
      rw [hne']
      simp only [Bool.false_eq_true, if_false, List.reverse_append,
        List.reverse_cons, List.reverse_nil, List.nil_append]
      rw [ih hr]
      simp [List.take_succ_cons]
    | none =>
      simp only [rfindIdx?, hr] at h
      rw [singleton_isPrefixOf] at h
      by_cases hcx : c = x
      · simp only [hcx, beq_self_eq_true, if_true, Option.some.injEq] at h
        subst h
        have hnot := rfind_none_notMem hr
        unfold takeThroughLastChar
        rw [List.reverse_cons, List.dropWhile_append]
        have hempty : (xs.reverse.dropWhile (fun y => y != c)).isEmpty = true := by
          rw [List.isEmpty_iff, List.dropWhile_eq_nil_iff]
          intro y hy
          have : y ≠ c := fun hyc => hnot (hyc ▸ List.mem_reverse.mp hy)
          simp [this]
        rw [hempty]
        simp [List.dropWhile_cons, hcx]
      · have : (c == x) = false := by simp [hcx]
        simp [this] at h

lemma takeThroughLast_of_rfind_none {c : Char} {s : List Char}
    (h : rfindIdx? [c] s = none) : takeThroughLastChar c s = [] := by
  have hnot := rfind_none_notMem h
  unfold takeThroughLastChar
  rw [List.dropWhile_eq_nil_iff.mpr ?_]
  · rfl
  · intro y hy
    have : y ≠ c := fun hyc => hnot (hyc ▸ List.mem_reverse.mp hy)
    simp [this]

lemma rfind_drop_le {c : Char} :
    ∀ (k : Nat) (s : List Char) (j : Nat), rfindIdx? [c] s = some j → k ≤ j →
      rfindIdx? [c] (s.drop k) = some (j - k) := by
  intro k
  induction k with
  | zero => intro s j h _; simpa using h
  | succ k ih =>
    intro s j h hk
    cases s with
    | nil => simp [rfindIdx?] at h
    | cons x xs =>
      cases hr : rfindIdx? [c] xs with
      | some m =>
        simp only [rfindIdx?, hr, Option.some.injEq] at h
        subst h
        rw [List.drop_succ_cons]
        have := ih xs m hr (by omega)
        rw [this]
        congr 1
        omega
      | none =>
        simp only [rfindIdx?, hr] at h
        by_cases hp : [c].isPrefixOf (x :: xs)
        · simp only [hp, if_true, Option.some.injEq] at h
          omega
        · simp [hp] at h

lemma rfind_drop_gt {c : Char} :
    ∀ (k : Nat) (s : List Char) (j : Nat), rfindIdx? [c] s = some j → j < k →
      c ∉ s.drop k := by
  intro k
  induction k with
  | zero => intro s j _ h; omega
  | succ k ih =>
    intro s j h hk
    cases s with
    | nil => simp
    | cons x xs =>
      rw [List.drop_succ_cons]
      cases hr : rfindIdx? [c] xs with
      | some m =>
        simp only [rfindIdx?, hr, Option.some.injEq] at h
        subst h
        exact ih xs m hr (by omega)
      | none =>
        intro hmem
        exact rfind_none_notMem hr (List.mem_of_mem_drop hmem)

lemma take_min_length (s : List Char) (b : Nat) :
    s.take (min b s.length) = s.take b := by
  rcases le_total b s.length with h | h
  · rw [min_eq_left h]
  · rw [min_eq_right h, List.take_length, List.take_of_length_le h]

lemma take_drop_swap (s : List Char) (a b : Nat) :
    (s.take b).drop a = (s.drop a).take (b - a) := by
  rcases le_or_lt a b with h | h
  · rw [List.take_drop a (b - a) s, Nat.add_sub_cancel' h]
  · rw [Nat.sub_eq_zero_of_le (le_of_lt h), List.take_zero]
    apply List.drop_eq_nil_of_le
    calc (s.take b).length ≤ b := by simp
      _ ≤ a := le_of_lt h

lemma pySlice_nonneg (s : List Char) (a b : Nat) :
    pySlice s (a : Int) (b : Int) = (s.drop a).take (b - a) := by
  unfold pySlice
  have ha : ¬ ((a : Int) < 0) := by omega
  have hb : ¬ ((b : Int) < 0) := by omega
  simp only [ha, hb, if_false]
  have h1 : (min (b : Int) ((s.length : Nat) : Int)).toNat = min b s.length := by
    omega
  have h2 : (max (a : Int) 0).toNat = a := by omega
  rw [h1, h2, take_min_length, take_drop_swap]

lemma pySlice_neg_one (s : List Char) (a : Nat) :
    pySlice s (a : Int) (-1) = (s.drop a).dropLast := by
  unfold pySlice
  have ha : ¬ ((a : Int) < 0) := by omega
  have hb : (-1 : Int) < 0 := by omega
  simp only [ha, hb, if_true, if_false]
  have h1 : (min (-1 + (s.length : Int)) ((s.length : Nat) : Int)).toNat = s.length - 1 := by
    omega
  have h2 : (max (a : Int) 0).toNat = a := by omega
  rw [h1, h2, take_drop_swap, List.dropLast_eq_take, List.length_drop]
  congr 1
  omega

lemma mem_of_findIdx {c : Char} {s : List Char} {i : Nat}
    (h : findIdx? [c] s = some i) : c ∈ s := by
  induction s generalizing i with
  | nil => simp [findIdx?] at h
  | cons x xs ih =>
    unfold findIdx? at h
    rw [singleton_isPrefixOf] at h
    by_cases hcx : c = x
    · simp [hcx]
    · have : (c == x) = false := by simp [hcx]
      simp only [this, Bool.false_eq_true, if_false, Option.map_eq_some'] at h
      obtain ⟨m, hm, rfl⟩ := h
      exact List.mem_cons_of_mem x (ih hm)

lemma branch2_eq {s : List Char} {i j : Nat}
    (hi : findIdx? [obChar] s = some i) (hj : rfindIdx? [cbChar] s = some j) :
    pySlice s (i : Int) ((j : Int) + 1)
      = takeThroughLastChar cbChar (dropBeforeFirstChar obChar s) := by
  have hcast : ((j : Int) + 1) = ((j + 1 : Nat) : Int) := by push_cast; ring
  rw [hcast, pySlice_nonneg]
  unfold dropBeforeFirstChar
  rw [dropWhile_neq_of_findIdx hi]
  rcases le_or_lt i j with hij | hij
  · have hshift := rfind_drop_le i s j hj hij
    rw [takeThroughLast_of_rfind hshift]
    congr 1
    omega
  · cases hr : rfindIdx? [cbChar] (s.drop i) with
    | some m => exact absurd (rfind_mem hr) (rfind_drop_gt i s j hj hij)
    | none =>
      rw [takeThroughLast_of_rfind_none hr]
      have hz : j + 1 - i = 0 := by omega
      rw [hz, List.take_zero]

/-- C2, counterexample to the claim as stated: with the response
` ```json {} ``` ` the content strictly between the fences is `" {} "`,
but the code strips it and returns `"{}"`. -/
theorem c2_counterexample :
    claimExtract ("\x60\x60\x60json \x7b\x7d \x60\x60\x60".data)
        = some (" \x7b\x7d ".data)
      ∧ extractPayload ("\x60\x60\x60json \x7b\x7d \x60\x60\x60".data)
        = "\x7b\x7d".data
      ∧ (" \x7b\x7d ".data : List Char) ≠ "\x7b\x7d".data := by
  refine ⟨by decide, by decide, by decide⟩

/-- C2 as amended: the structured-extraction step of `process_requirements`
selects, in priority order, the content strictly between the first opening
fence marker and the next closing fence with surrounding whitespace stripped
(when no closing fence follows, the stripped content from after the marker up
to but excluding the final character of the response); else, when both braces
occur, the exact substring from the first opening brace to the last closing
brace; else the entire response. -/
theorem c2_extraction_amended (r : List Char) : extractPayload r = specExtract r := by
  unfold extractPayload specExtract
  cases hf : findIdx? fenceJson r with
  | some i =>
    have hcont : pyContains fenceJson r = true := by simp [pyContains, hf]
    rw [afterFirst_eq, hf]
    have hlen : fenceJson.length = 7 := rfl
    have hfind0 : pyFind r fenceJson 0 = (i : Int) := by
      unfold pyFind
      rw [List.drop_zero, hf]
      simp
    have htn : ((i : Int) + 7).toNat = i + 7 := by omega
    simp only [hcont, if_true, Option.map_some', hlen, hfind0, htn]
    cases hg : findIdx? fence3 (r.drop (i + 7)) with
    | some j =>
      have hfind1 : pyFind r fence3 (i + 7) = ((i + 7 + j : Nat) : Int) := by
        unfold pyFind
        rw [hg]
      rw [beforeFirst_eq, hg]
      have hcast : ((i : Int) + 7) = ((i + 7 : Nat) : Int) := by push_cast; ring
      simp only [hfind1, Option.map_some', hcast, pySlice_nonneg]
      congr 2
      omega
    | none =>
      have hfind1 : pyFind r fence3 (i + 7) = -1 := by
        unfold pyFind
        rw [hg]
      rw [beforeFirst_eq, hg]
      have hcast : ((i : Int) + 7) = ((i + 7 : Nat) : Int) := by push_cast; ring
      simp only [hfind1, Option.map_none', hcast, pySlice_neg_one]
  | none =>
    have hcont : pyContains fenceJson r = false := by simp [pyContains, hf]
    rw [afterFirst_eq, hf]
    simp only [hcont, Bool.false_eq_true, if_false, Option.map_none']
    rw [contains_eq_pyContains, contains_eq_pyContains]
    cases hb1 : pyContains [obChar] r with
    | false => simp [hb1]
    | true =>
      cases hb2 : pyContains [cbChar] r with
      | false => simp [hb1, hb2]
      | true =>
        simp only [hb1, hb2, Bool.and_self, if_true]
        obtain ⟨i, hi⟩ := Option.isSome_iff_exists.mp (by simpa [pyContains] using hb1)
        obtain ⟨k, hk⟩ := Option.isSome_iff_exists.mp (by simpa [pyContains] using hb2)
        obtain ⟨j, hj⟩ :=
          Option.isSome_iff_exists.mp (rfind_isSome_of_mem (mem_of_findIdx (s := r) hk))
        have h1 : pyFind r [obChar] 0 = (i : Int) := by
          unfold pyFind
          rw [List.drop_zero, hi]
          simp
        have h2 : pyRfind r [cbChar] = (j : Int) := by
          unfold pyRfind
          rw [hj]
        simp only [h1, h2]
        exact branch2_eq hi hj

/-! ### JSON values and a model of `json.loads` / `json.dumps`

The standard library's `json` module is external to the repository; it is
modelled here by a structured value type, a fuel-indexed recursive-descent
parser (`jsonLoads`) and the serializers used on the repository's data.
Numbers are kept as their raw literal text (no claim depends on numeric
interpretation), and `\u` escapes outside the basic plane are not paired. -/

inductive Json where
  | null
  | bool (b : Bool)
  | num (digits : List Char)
  | str (s : List Char)
  | arr (xs : List Json)
  | obj (members : List (List Char × Json))

/-- The whitespace characters skipped between JSON tokens. -/
def isJsonWs (c : Char) : Bool :=
  c = ' ' || c = '\t' || c = '\n' || c = '\r'

def skipJsonWs (s : List Char) : List Char :=
  s.dropWhile isJsonWs

def hexVal? (c : Char) : Option Nat :=
  if 48 ≤ c.toNat ∧ c.toNat ≤ 57 then some (c.toNat - 48)
  else if 97 ≤ c.toNat ∧ c.toNat ≤ 102 then some (c.toNat - 87)
  else if 65 ≤ c.toNat ∧ c.toNat ≤ 70 then some (c.toNat - 55)
  else none

/-- Single-character JSON escapes. -/
def escChar? (c : Char) : Option Char :=
  if c = '"' then some '"'
  else if c = '\\' then some '\\'
  else if c = '/' then some '/'
  else if c = 'b' then some '\x08'
  else if c = 'f' then some '\x0c'
  else if c = 'n' then some '\n'
  else if c = 'r' then some '\r'
  else if c = 't' then some '\t'
  else none

/-- Parse the body of a JSON string (the opening quote already consumed),
returning the decoded content and the input following the closing quote. -/
def parseStrBody : Nat → List Char → Option (List Char × List Char)
  | 0, _ => none
  | _ + 1, [] => none
  | f + 1, c :: rest =>
    if c = '"' then some ([], rest)
    else if c = '\\' then
      match rest with
      | [] => none
      | e :: rest2 =>
        if e = 'u' then
          match rest2 with
          | h1 :: h2 :: h3 :: h4 :: rest3 =>
            match hexVal? h1, hexVal? h2, hexVal? h3, hexVal? h4 with
            | some a, some b, some c2, some d =>
              (parseStrBody f rest3).map
                (fun p => (Char.ofNat (((a * 16 + b) * 16 + c2) * 16 + d) :: p.1, p.2))
            | _, _, _, _ => none
          | _ => none
        else
          match escChar? e with
          | some c2 => (parseStrBody f rest2).map (fun p => (c2 :: p.1, p.2))
          | none => none
    else (parseStrBody f rest).map (fun p => (c :: p.1, p.2))

/-- Characters allowed to continue a number token. -/
def isNumChar (c : Char) : Bool :=
  c.isDigit || c = '-' || c = '+' || c = '.' || c = 'e' || c = 'E'

mutual

/-- Parse one JSON value at the head of the input. -/
def parseVal : Nat → List Char → Option (Json × List Char)
  | 0, _ => none
  | f + 1, s =>
    match s with
    | [] => none
    | c :: rest =>
      if c = '"' then
        (parseStrBody (rest.length + 1) rest).map (fun p => (Json.str p.1, p.2))
      else if c = '[' then
        match skipJsonWs rest with
        | ']' :: r => some (Json.arr [], r)
        | s1 => (parseItems f s1).map (fun p => (Json.arr p.1, p.2))
      else if c = obChar then
        match skipJsonWs rest with
        | c2 :: r =>
          if c2 = cbChar then some (Json.obj [], r)
          else (parseMembers f (c2 :: r)).map (fun p => (Json.obj p.1, p.2))
        | [] => none
      else if "true".data.isPrefixOf s then some (Json.bool true, s.drop 4)
      else if "false".data.isPrefixOf s then some (Json.bool false, s.drop 5)
      else if "null".data.isPrefixOf s then some (Json.null, s.drop 4)
      else if c.isDigit || c = '-' then
        let digits := s.takeWhile isNumChar
        some (Json.num digits, s.drop digits.length)
      else none

/-- Parse the items of a non-empty array (after the opening bracket and
leading whitespace), through the closing bracket. -/
def parseItems : Nat → List Char → Option (List Json × List Char)
  | 0, _ => none
  | f + 1, s =>
    match parseVal f s with
    | none => none
    | some (v, r) =>
      match skipJsonWs r with
      | ',' :: r2 => (parseItems f (skipJsonWs r2)).map (fun p => (v :: p.1, p.2))
      | ']' :: r2 => some ([v], r2)
      | _ => none

/-- Parse the members of a non-empty object (after the opening brace and
leading whitespace), through the closing brace. -/
def parseMembers : Nat → List Char → Option (List (List Char × Json) × List Char)
  | 0, _ => none
  | f + 1, s =>
    match s with
    | '"' :: r =>
      match parseStrBody (r.length + 1) r with
      | none => none
      | some (k, r1) =>
        match skipJsonWs r1 with
        | ':' :: r2 =>
          match parseVal f (skipJsonWs r2) with
          | none => none
          | some (v, r3) =>
            match skipJsonWs r3 with
            | ',' :: r4 =>
              (parseMembers f (skipJsonWs r4)).map (fun p => ((k, v) :: p.1, p.2))
            | c :: r4 => if c = cbChar then some ([(k, v)], r4) else none
            | [] => none
        | _ => none
    | _ => none

end

/-- Model of `json.loads`: parse one value, allowing surrounding whitespace
and requiring the whole input to be consumed. -/
def jsonLoads (s : List Char) : Option Json :=
  match parseVal (2 * s.length + 2) (skipJsonWs s) with
  | some (v, rest) => if skipJsonWs rest = [] then some v else none
  | none => none

/-! ### The Brief and `process_requirements` -/

/-- `EmailBrief` (backend lines 17-22). -/
structure EmailBrief where
  recipients : List (List Char)
  purpose : List Char
  tone : List Char
  constraints : Option (List Char)

/-- Python `dict.get(key, default)` on parsed members; with duplicate keys
`json.loads` keeps the last occurrence, hence the reverse search. -/
def pyDictGet (kvs : List (List Char × Json)) (key : List Char) (dflt : Json) : Json :=
  match kvs.reverse.find? (fun kv => kv.1 == key) with
  | some kv => kv.2
  | none => dflt

/-- Result of `process_requirements`: the source returns
`{"context": json.dumps(parsed_context), "subject": subject}`; the context is
modelled as the structured value it serializes. -/
structure ProcessResult where
  context : Json
  subject : Json

/-- The context-processing step of `process_requirements` (backend lines
124-147), taking the generation response as an explicit argument.  A parse
failure, and equally a parsed payload that is not an object (on which the
source's `parsed_context.get` raises `AttributeError`, caught by the bare
`except`), falls back to the derived subject. -/
def processRequirements (brief : EmailBrief) (response : List Char) : ProcessResult :=
  let payload := extractPayload response
  match jsonLoads payload with
  | some (Json.obj kvs) =>
    ⟨Json.obj kvs, pyDictGet kvs "subject_suggestion".data (Json.str [])⟩
  | _ =>
    let subject := "Regarding: ".data ++ brief.purpose.take 50 ++ "...".data
    ⟨Json.obj [("purpose".data, Json.str brief.purpose),
               ("subject_suggestion".data, Json.str subject)],
     Json.str subject⟩

/-- C1: whenever the extracted payload fails to parse as JSON,
`process_requirements` returns the derived subject
`"Regarding: " ++ purpose[:50] ++ "..."` and a context object carrying the
raw purpose and that subject. -/
theorem c1_parse_failure_fallback (brief : EmailBrief) (response : List Char)
    (h : jsonLoads (extractPayload response) = none) :
    processRequirements brief response =
      ⟨Json.obj [("purpose".data, Json.str brief.purpose),
                 ("subject_suggestion".data,
                  Json.str ("Regarding: ".data ++ brief.purpose.take 50 ++ "...".data))],
       Json.str ("Regarding: ".data ++ brief.purpose.take 50 ++ "...".data)⟩ := by
  unfold processRequirements
  simp only [h]

/-- Witness for C1 at a concrete brief and response. -/
theorem c1_parse_failure_fallback_witness :
    jsonLoads (extractPayload "no json here".data) = none
      ∧ processRequirements ⟨[], "hello".data, "professional".data, none⟩
            "no json here".data
          = ⟨Json.obj [("purpose".data, Json.str "hello".data),
                       ("subject_suggestion".data, Json.str "Regarding: hello...".data)],
             Json.str "Regarding: hello...".data⟩ :=
  ⟨rfl, c1_parse_failure_fallback ⟨[], "hello".data, "professional".data, none⟩
    "no json here".data rfl⟩

/-! ### Serialization of the stored fields (`json.dumps` on the shapes used)

`save_email` stores `json.dumps(brief.recipients)` (a list of strings) and
`update_email_status` stores `json.dumps(final_email)` (a fixed-shape dict);
the corresponding serializers are modelled here, including the default
`ensure_ascii` escaping. -/

def hexDigit (n : Nat) : Char :=
  if n < 10 then Char.ofNat (48 + n) else Char.ofNat (87 + n)

def hex4 (n : Nat) : List Char :=
  [hexDigit (n / 4096 % 16), hexDigit (n / 256 % 16), hexDigit (n / 16 % 16), hexDigit (n % 16)]

/-- How `json.dumps` renders one character of a string (default settings:
short escapes, `\uXXXX` for other control or non-ASCII characters, surrogate
pairs beyond the basic plane). -/
def escapeChar (c : Char) : List Char :=
  if c = '"' then ['\\', '"']
  else if c = '\\' then ['\\', '\\']
  else if c = '\n' then ['\\', 'n']
  else if c = '\t' then ['\\', 't']
  else if c = '\r' then ['\\', 'r']
  else if c = '\x08' then ['\\', 'b']
  else if c = '\x0c' then ['\\', 'f']
  else if 32 ≤ c.toNat ∧ c.toNat ≤ 126 then [c]
  else if c.toNat < 65536 then '\\' :: 'u' :: hex4 c.toNat
  else '\\' :: 'u' :: hex4 (55296 + (c.toNat - 65536) / 1024)
    ++ '\\' :: 'u' :: hex4 (56320 + (c.toNat - 65536) % 1024)

def escapeAll : List Char → List Char
  | [] => []
  | c :: rest => escapeChar c ++ escapeAll rest

/-- `json.dumps` of a single string. -/
def dumpsStr (s : List Char) : List Char :=
  '"' :: escapeAll s ++ ['"']

/-- Comma-separated continuation of `dumpsStrList` (default separator `", "`). -/
def dumpsStrListTail : List (List Char) → List Char
  | [] => []
  | r :: rest => ',' :: ' ' :: dumpsStr r ++ dumpsStrListTail rest

/-- `json.dumps` of a list of strings, as stored in the `recipients` column. -/
def dumpsStrList : List (List Char) → List Char
  | [] => "[]".data
  | r :: rest => '[' :: (dumpsStr r ++ dumpsStrListTail rest) ++ [']']

/-- The dict passed as `final_email` by the frontend:
`{"subject": ..., "body": ..., "recipients": [...]}`. -/
structure FinalEmail where
  subject : List Char
  body : List Char
  recipients : List (List Char)
deriving DecidableEq

/-- `json.dumps` of the `final_email` dict (insertion order of its keys). -/
def dumpsFinalEmail (fe : FinalEmail) : List Char :=
  "\x7b\"subject\": ".data ++ dumpsStr fe.subject
    ++ ", \"body\": ".data ++ dumpsStr fe.body
    ++ ", \"recipients\": ".data ++ dumpsStrList fe.recipients
    ++ "\x7d".data

/-! ### The `email_history` store

One row per record, in rowid (insertion) order; timestamps are abstracted to
naturals. -/

/-- A row of the `email_history` table (schema in `setup_database`,
backend lines 43-57). -/
structure Row where
  id : List Char
  thread_id : List Char
  recipients : List Char
  subject : List Char
  purpose : List Char
  tone : List Char
  draft : List Char
  final_email : Option (List Char)
  status : List Char
  created_at : Nat
  updated_at : Nat
deriving DecidableEq

/-- The column names declared by the `CREATE TABLE` statement in
`setup_database`. -/
def emailHistoryColumns : List (List Char) :=
  ["id".data, "thread_id".data, "recipients".data, "subject".data, "purpose".data,
   "tone".data, "draft".data, "final_email".data, "status".data,
   "created_at".data, "updated_at".data]

/-- `save_email` (backend lines 219-242): `INSERT OR REPLACE` keyed on the
primary key `id` (always the thread id); the replaced row is removed and the
new row appended with a fresh rowid.  The `final_email` column is not in the
insert list, so it is `NULL`. -/
def saveEmail (db : List Row) (threadId : List Char) (brief : EmailBrief)
    (subject draft status : List Char) (now : Nat) : List Row :=
  (db.filter fun r => r.id ≠ threadId) ++
    [{ id := threadId
       thread_id := threadId
       recipients := dumpsStrList brief.recipients
       subject := subject
       purpose := brief.purpose
       tone := brief.tone
       draft := draft
       final_email := none
       status := status
       created_at := now
       updated_at := now }]

/-- `update_email_status` (backend lines 244-258).  The source serializes
`final_email` only when it is truthy (`json.dumps(final_email) if final_email
else None`); in this typed model the argument is `none` exactly when the
Python value is falsy. -/
def updateEmailStatus (db : List Row) (threadId status : List Char)
    (finalEmail : Option FinalEmail) (now : Nat) : List Row :=
  let feJson : Option (List Char) := finalEmail.map dumpsFinalEmail
  db.map fun r =>
    if r.thread_id = threadId then
      { r with status := status, final_email := feJson, updated_at := now }
    else r

/-- `get_email_history` (backend lines 260-274): `SELECT * ... ORDER BY
created_at DESC`. -/
def getEmailHistory (db : List Row) : List Row :=
  db.mergeSort (fun a b => b.created_at ≤ a.created_at)

/-- `get_thread_by_id` (backend lines 276-294): `SELECT * ... WHERE
thread_id = ?` followed by `fetchone` (first matching row in rowid order). -/
def getThreadById (db : List Row) (threadId : List Char) : Option Row :=
  (db.filter fun r => r.thread_id = threadId).head?

/-- `improve_draft` (backend lines 177-194): builds a revision prompt (the
generation call is external; its response is the last argument) and returns
the stripped response text — nothing else is recorded. -/
def improveDraft (_originalDraft _feedback : List Char) (_brief : EmailBrief)
    (response : List Char) : List Char :=
  pyStrip response

/-- A persisted thread in state `sent`, used as concrete store content. -/
def sampleRow : Row :=
  { id := "t1".data
    thread_id := "t1".data
    recipients := "[]".data
    subject := "s".data
    purpose := "p".data
    tone := "professional".data
    draft := "d".data
    final_email := none
    status := "sent".data
    created_at := 1
    updated_at := 1 }

/-- C3, counterexample to the claim as stated: §4.2 permits no transition out
of `sent` back to `draft`, yet `update_email_status` applies it — the
persisted record is modified and no `InvalidStateError` exists (the operation
returns the updated store unconditionally). -/
theorem c3_counterexample :
    updateEmailStatus [sampleRow] "t1".data "draft".data none 2 ≠ [sampleRow]
      ∧ (updateEmailStatus [sampleRow] "t1".data "draft".data none 2).head?
          = some { sampleRow with status := "draft".data, updated_at := 2 } := by
  refine ⟨by decide, by decide⟩

/-- C3 as amended: transitions are not gated on the current state —
`update_email_status` unconditionally applies the requested status to every
record of the thread, whatever state it was in, and signals no error. -/
theorem c3_unconditional_update (db : List Row) (tid st : List Char)
    (fe : Option FinalEmail) (now : Nat) (r' : Row)
    (h : r' ∈ updateEmailStatus db tid st fe now) (htid : r'.thread_id = tid) :
    r'.status = st := by
  unfold updateEmailStatus at h
  simp only [List.mem_map] at h
  obtain ⟨r, hr, heq⟩ := h
  by_cases hc : r.thread_id = tid
  · simp only [hc, if_true] at heq
    rw [← heq]
  · simp only [hc, if_false] at heq
    rw [← heq] at htid
    exact absurd htid hc

/-- Witness for C3's amended theorem at a concrete store. -/
theorem c3_unconditional_update_witness :
    ({ sampleRow with status := "draft".data, updated_at := 2 } : Row)
        ∈ updateEmailStatus [sampleRow] "t1".data "draft".data none 2
      ∧ ({ sampleRow with status := "draft".data, updated_at := 2 } : Row).status
          = "draft".data :=
  ⟨by decide,
   c3_unconditional_update [sampleRow] "t1".data "draft".data none 2
     { sampleRow with status := "draft".data, updated_at := 2 } (by decide) (by decide)⟩

/-- C4, counterexample to the claim as stated: `update_email_status` happily
produces a record with `status = "sent"` and `final_email` NULL. -/
theorem c4_counterexample :
    (updateEmailStatus [{ sampleRow with status := "draft".data }]
        "t1".data "sent".data none 2).head?
      = some { sampleRow with status := "sent".data, updated_at := 2 }
      ∧ ({ sampleRow with status := "sent".data, updated_at := 2 } : Row).final_email
          = none := by
  refine ⟨by decide, rfl⟩

/-- C4 as amended: `final_email` is set by `update_email_status` exactly when
a truthy `final_email` argument is supplied — the status value (including
`"sent"`) is not tied to it. -/
theorem c4_final_email_amended (db : List Row) (tid st : List Char)
    (fe : Option FinalEmail) (now : Nat) (r' : Row)
    (h : r' ∈ updateEmailStatus db tid st fe now) (htid : r'.thread_id = tid) :
    r'.final_email = fe.map dumpsFinalEmail
      ∧ (r'.final_email ≠ none ↔ fe ≠ none) := by
  unfold updateEmailStatus at h
  simp only [List.mem_map] at h
  obtain ⟨r, hr, heq⟩ := h
  by_cases hc : r.thread_id = tid
  · simp only [hc, if_true] at heq
    rw [← heq]
    refine ⟨rfl, ?_⟩
    cases fe <;> simp
  · simp only [hc, if_false] at heq
    rw [← heq] at htid
    exact absurd htid hc

/-- Witness for C4's amended theorem at a concrete store and final email. -/
theorem c4_final_email_amended_witness :
    (updateEmailStatus [sampleRow] "t1".data "sent".data
          (some ⟨"s".data, "b".data, ["a@x.com".data]⟩) 2).head?
        = some { sampleRow with
                 status := "sent".data
                 final_email := some (dumpsFinalEmail ⟨"s".data, "b".data, ["a@x.com".data]⟩)
                 updated_at := 2 }
      ∧ ({ sampleRow with
           status := "sent".data
           final_email := some (dumpsFinalEmail ⟨"s".data, "b".data, ["a@x.com".data]⟩)
           updated_at := 2 } : Row).final_email
          = (some ⟨"s".data, "b".data, ["a@x.com".data]⟩ : Option FinalEmail).map dumpsFinalEmail :=
  ⟨by decide,
   (c4_final_email_amended [sampleRow] "t1".data "sent".data
      (some ⟨"s".data, "b".data, ["a@x.com".data]⟩) 2 _ (by decide) (by decide)).1⟩

/-- C6, counterexample to the claim as stated: the store records no revision
number at all — the `email_history` schema has no `revision` column. -/
theorem c6_counterexample : "revision".data ∉ emailHistoryColumns := by
  decide

/-- C6 as amended: no revision counter exists anywhere in the persistence
schema; the columns are exactly the eleven of `setup_database`, and draft
improvement (`improve_draft`) returns only replacement text. -/
theorem c6_no_revision_column :
    emailHistoryColumns
      = ["id".data, "thread_id".data, "recipients".data, "subject".data,
         "purpose".data, "tone".data, "draft".data, "final_email".data,
         "status".data, "created_at".data, "updated_at".data]
      ∧ ∀ d f b resp, improveDraft d f b resp = pyStrip resp :=
  ⟨rfl, fun _ _ _ _ => rfl⟩

/-- C9: listing history returns all persisted records, ordered by creation
timestamp descending (newest first). -/
theorem c9_history_newest_first (db : List Row) :
    (getEmailHistory db).Perm db
      ∧ (getEmailHistory db).Pairwise (fun a b => b.created_at ≤ a.created_at) := by
  constructor
  · exact List.mergeSort_perm db _
  · have h := List.sorted_mergeSort
      (fun (a b c : Row) (hab : (decide (b.created_at ≤ a.created_at)) = true)
          (hbc : (decide (c.created_at ≤ b.created_at)) = true) => by
        simp only [decide_eq_true_eq] at *
        omega)
      (fun (a b : Row) => by
        simp only [Bool.or_eq_true, decide_eq_true_eq]
        omega)
      db
    exact h.imp (fun hab => by simpa using hab)

/-- C10: `update_email_status` modifies only the `status`, `final_email` and
`updated_at` fields of rows whose `thread_id` matches; every other field of a
matching row, and every field of a non-matching row, is unchanged. -/
theorem c10_update_frame (db : List Row) (tid st : List Char)
    (fe : Option FinalEmail) (now : Nat) (i : Nat) (r r' : Row)
    (hr : db[i]? = some r)
    (hr' : (updateEmailStatus db tid st fe now)[i]? = some r') :
    (r.thread_id ≠ tid → r' = r)
      ∧ (r.thread_id = tid →
          r'.id = r.id ∧ r'.thread_id = r.thread_id ∧ r'.recipients = r.recipients
            ∧ r'.subject = r.subject ∧ r'.purpose = r.purpose ∧ r'.tone = r.tone
            ∧ r'.draft = r.draft ∧ r'.created_at = r.created_at) := by
  unfold updateEmailStatus at hr'
  rw [List.getElem?_map, hr] at hr'
  simp only [Option.map_some', Option.some.injEq] at hr'
  by_cases hc : r.thread_id = tid
  · simp only [hc, if_true] at hr'
    rw [← hr']
    exact ⟨fun hn => absurd hc hn, fun _ => ⟨rfl, hc.symm, rfl, rfl, rfl, rfl, rfl, rfl⟩⟩
  · simp only [hc, if_false] at hr'
    exact ⟨fun _ => hr'.symm, fun ht => absurd ht hc⟩

/-- Witness for C10 at a concrete two-row store. -/
theorem c10_update_frame_witness :
    ([sampleRow, { sampleRow with id := "t2".data, thread_id := "t2".data }] :
        List Row)[1]?
        = some { sampleRow with id := "t2".data, thread_id := "t2".data }
      ∧ (updateEmailStatus
            [sampleRow, { sampleRow with id := "t2".data, thread_id := "t2".data }]
            "t1".data "draft".data none 2)[1]?
          = some { sampleRow with id := "t2".data, thread_id := "t2".data }
      ∧ ({ sampleRow with id := "t2".data, thread_id := "t2".data } : Row).thread_id
            ≠ "t1".data
      ∧ ({ sampleRow with id := "t2".data, thread_id := "t2".data } : Row)
          = { sampleRow with id := "t2".data, thread_id := "t2".data } :=
  ⟨by decide, by decide, by decide,
   (c10_update_frame
      [sampleRow, { sampleRow with id := "t2".data, thread_id := "t2".data }]
      "t1".data "draft".data none 2 1 _ _ (by decide) (by decide)).1 (by decide)⟩

/-! ### `call_gemini_api` (backend lines 62-102)

The HTTP transport is modelled by its outcome: a parsed JSON body shaped as
the provider schema types it, a `requests` exception (which includes non-2xx
statuses via `raise_for_status`), or any other exception.  `Option` fields
mirror the source's `in`-membership checks; the two hard-coded error texts
are the CPython messages of the exceptions the final indexing raises, caught
by the bare `except Exception`. -/

structure GeminiPart where
  text : Option (List Char)

structure GeminiContent where
  parts : Option (List GeminiPart)

structure GeminiCandidate where
  content : Option GeminiContent

structure GeminiBody where
  candidates : Option (List GeminiCandidate)

inductive GeminiOutcome where
  | ok (body : GeminiBody)
  | requestExc (msg : List Char)
  | otherExc (msg : List Char)

/-- `call_gemini_api`: all outcomes are folded into the one string channel. -/
def callGeminiApi : GeminiOutcome → List Char
  | .requestExc e => "API Error: ".data ++ e
  | .otherExc e => "Error: ".data ++ e
  | .ok body =>
    match body.candidates with
    | some (c :: _) =>
      match c.content with
      | some content =>
        match content.parts with
        | some (p :: _) =>
          match p.text with
          | some t => t
          | none => "Error: \x27text\x27".data
        | some [] => "Error: list index out of range".data
        | none => "Error: Could not generate response".data
      | none => "Error: Could not generate response".data
    | _ => "Error: Could not generate response".data

/-- A provider body whose single candidate carries the given text. -/
def mkTextBody (t : List Char) : GeminiBody :=
  ⟨some [⟨some ⟨some [⟨some t⟩]⟩⟩]⟩

/-- C7, counterexample to the claim as stated: there is no typed error — a
successful generation whose text happens to start with `"API Error: "` is
byte-for-byte indistinguishable from a transport failure. -/
theorem c7_counterexample :
    callGeminiApi (.ok (mkTextBody ("API Error: boom".data)))
      = callGeminiApi (.requestExc "boom".data) := rfl

/-- C7 as amended: `call_gemini_api` never raises and returns no typed error;
transport failures come back as `"API Error: " + message` and other failures
as `"Error: " + message` in the same string channel as generated text, so a
failure is not reliably distinguishable from a successful generation. -/
theorem c7_error_in_band_amended (msg : List Char) :
    callGeminiApi (.requestExc msg) = "API Error: ".data ++ msg
      ∧ callGeminiApi (.otherExc msg) = "Error: ".data ++ msg
      ∧ callGeminiApi (.ok (mkTextBody ("API Error: ".data ++ msg)))
          = callGeminiApi (.requestExc msg) :=
  ⟨rfl, rfl, rfl⟩

/-! ### `EmailService.send_email` (email_service.py lines 46-121)

Credentials come from the explicit arguments or the environment through
Python's falsy-aware `or`; the SMTP session outcome is passed explicitly. -/

inductive SmtpOutcome where
  | delivered
  | authError
  | recipientsRefused
  | otherExc (msg : List Char)

structure SendResult where
  success : Bool
  message : List Char
deriving DecidableEq

/-- Python `a or b` on optional strings (`None` and `""` are falsy). -/
def pyOrStr (a b : Option (List Char)) : Option (List Char) :=
  match a with
  | some s => if s = [] then b else some s
  | none => b

/-- Python falsiness of an optional string. -/
def strFalsy : Option (List Char) → Bool
  | none => true
  | some s => s.isEmpty

def credsMissingMsg : List Char :=
  "Email credentials not provided. Check EMAIL_USERNAME and EMAIL_PASSWORD in .env file".data

def authFailedMsg : List Char :=
  "Email authentication failed. Check your email and password/app password.".data

def recipientsRefusedMsg : List Char :=
  "One or more recipients were refused. Check email addresses.".data

/-- `EmailService.send_email`. -/
def sendEmail (senderEmail senderPassword envUsername envPassword : Option (List Char))
    (recipients : List (List Char)) (outcome : SmtpOutcome) : SendResult :=
  let sender := pyOrStr senderEmail envUsername
  let password := pyOrStr senderPassword envPassword
  if strFalsy sender || strFalsy password then
    ⟨false, credsMissingMsg⟩
  else
    match outcome with
    | .delivered =>
      ⟨true, "Email sent successfully to ".data ++ (Nat.repr recipients.length).data
        ++ " recipient(s)".data⟩
    | .authError => ⟨false, authFailedMsg⟩
    | .recipientsRefused => ⟨false, recipientsRefusedMsg⟩
    | .otherExc msg => ⟨false, "Failed to send email: ".data ++ msg⟩

/-- C8: missing credentials yield `success = false` with the configuration
message and no delivery attempt (the result does not depend on the SMTP
outcome); with credentials, authentication failure and recipient rejection
each yield `success = false` with their own distinct message, and successful
delivery yields `success = true` with a message. -/
theorem c8_delivery_classification
    (ae ap eu ep : Option (List Char)) (recipients : List (List Char)) :
    ((strFalsy (pyOrStr ae eu) || strFalsy (pyOrStr ap ep)) = true →
      ∀ o o' : SmtpOutcome,
        sendEmail ae ap eu ep recipients o = sendEmail ae ap eu ep recipients o'
          ∧ sendEmail ae ap eu ep recipients o = ⟨false, credsMissingMsg⟩)
    ∧ ((strFalsy (pyOrStr ae eu) || strFalsy (pyOrStr ap ep)) = false →
        (sendEmail ae ap eu ep recipients .delivered).success = true
          ∧ (sendEmail ae ap eu ep recipients .delivered).message
              = "Email sent successfully to ".data ++ (Nat.repr recipients.length).data
                ++ " recipient(s)".data
          ∧ sendEmail ae ap eu ep recipients .authError = ⟨false, authFailedMsg⟩
          ∧ sendEmail ae ap eu ep recipients .recipientsRefused
              = ⟨false, recipientsRefusedMsg⟩
          ∧ authFailedMsg ≠ recipientsRefusedMsg
          ∧ authFailedMsg ≠ credsMissingMsg
          ∧ recipientsRefusedMsg ≠ credsMissingMsg) := by
  constructor
  · intro h o o'
    constructor <;> simp [sendEmail, h]
  · intro h
    refine ⟨?_, ?_, ?_, ?_, by decide, by decide, by decide⟩ <;>
      simp [sendEmail, h]

/-- Witness for C8 with missing and with supplied credentials. -/
theorem c8_delivery_classification_witness :
    sendEmail none none none none [] .delivered = ⟨false, credsMissingMsg⟩
      ∧ (sendEmail (some "u".data) (some "pw".data) none none
            ["a@x.com".data] .delivered).success = true :=
  ⟨((c8_delivery_classification none none none none []).1 rfl .delivered .delivered).2,
   ((c8_delivery_classification (some "u".data) (some "pw".data) none none
      ["a@x.com".data]).2 rfl).1⟩

/-! ### Round-trip of the stored recipients list (for C5)

A valid address contains only printable ASCII without quotes or backslashes;
for such strings `json.dumps` emits the characters verbatim, and parsing the
stored text recovers the list exactly. -/

/-- Characters that `json.dumps` emits verbatim (printable ASCII, no quote,
no backslash) — satisfied by every syntactically valid address. -/
def plainChar (c : Char) : Bool :=
  (32 ≤ c.toNat && c.toNat ≤ 126) && (c != '"') && (c != '\\')

lemma escapeChar_plain {c : Char} (h : plainChar c = true) : escapeChar c = [c] := by
  simp only [plainChar, Bool.and_eq_true, decide_eq_true_eq, bne_iff_ne, Ne] at h
  obtain ⟨⟨⟨h1, h2⟩, h3⟩, h4⟩ := h
  have hn : ¬ (c = '\n') := by rintro rfl; exact absurd h1 (by decide)
  have ht : ¬ (c = '\t') := by rintro rfl; exact absurd h1 (by decide)
  have hr : ¬ (c = '\r') := by rintro rfl; exact absurd h1 (by decide)
  have hb : ¬ (c = '\x08') := by rintro rfl; exact absurd h1 (by decide)
  have hf : ¬ (c = '\x0c') := by rintro rfl; exact absurd h1 (by decide)
  unfold escapeChar
  rw [if_neg h3, if_neg h4, if_neg hn, if_neg ht, if_neg hr, if_neg hb, if_neg hf,
    if_pos ⟨h1, h2⟩]

lemma escapeAll_plain {s : List Char} (h : ∀ c ∈ s, plainChar c = true) :
    escapeAll s = s := by
  induction s with
  | nil => rfl
  | cons c cs ih =>
    unfold escapeAll
    rw [escapeChar_plain (h c (List.mem_cons_self c cs)),
      ih (fun x hx => h x (List.mem_cons_of_mem c hx))]
    rfl

lemma parseStrBody_plain :
    ∀ (s rest : List Char) (f : Nat), s.length < f →
      (∀ c ∈ s, plainChar c = true) →
      parseStrBody f (s ++ '"' :: rest) = some (s, rest) := by
  intro s
  induction s with
  | nil =>
    intro rest f hf _
    cases f with
    | zero => exact absurd hf (by simp)
    | succ g => simp [parseStrBody]
  | cons c cs ih =>
    intro rest f hf hp
    cases f with
    | zero => exact absurd hf (by simp)
    | succ g =>
      have hc := hp c (List.mem_cons_self c cs)
      simp only [plainChar, Bool.and_eq_true, decide_eq_true_eq, bne_iff_ne, Ne] at hc
      simp only [List.cons_append, parseStrBody, List.append_eq]
      rw [if_neg hc.1.2, if_neg hc.2]
      rw [ih rest g (by simp at hf; omega) (fun x hx => hp x (List.mem_cons_of_mem c hx))]
      rfl

lemma dumpsStr_append (s rest : List Char) :
    dumpsStr s ++ rest = '"' :: (escapeAll s ++ '"' :: rest) := by
  simp [dumpsStr, List.append_assoc]

lemma parseVal_str (s rest : List Char) (f : Nat)
    (hp : ∀ c ∈ s, plainChar c = true) :
    parseVal (f + 1) ('"' :: (s ++ '"' :: rest)) = some (Json.str s, rest) := by
  simp only [parseVal, if_pos]
  rw [parseStrBody_plain s rest ((s ++ '"' :: rest).length + 1)
    (by simp only [List.length_append, List.length_cons]; omega) hp]
  rfl

lemma skipJsonWs_not_ws {c : Char} (l : List Char) (h : isJsonWs c = false) :
    skipJsonWs (c :: l) = c :: l := by
  simp [skipJsonWs, List.dropWhile_cons, h]

lemma skipJsonWs_space (l : List Char) : skipJsonWs (' ' :: l) = skipJsonWs l := by
  have h : isJsonWs ' ' = true := rfl
  simp [skipJsonWs, List.dropWhile_cons, h]

lemma dumpsStrListTail_length (rs : List (List Char)) :
    rs.length ≤ (dumpsStrListTail rs).length := by
  induction rs with
  | nil => simp [dumpsStrListTail]
  | cons r rest ih =>
    simp only [dumpsStrListTail, List.length_cons, List.length_append]
    omega

lemma parseItems_strings :
    ∀ (rs : List (List Char)) (r0 rest : List Char) (f : Nat),
      rs.length + 2 ≤ f →
      (∀ c ∈ r0, plainChar c = true) →
      (∀ r ∈ rs, ∀ c ∈ r, plainChar c = true) →
      parseItems f (dumpsStr r0 ++ (dumpsStrListTail rs ++ ']' :: rest))
        = some ((r0 :: rs).map Json.str, rest) := by
  intro rs
  induction rs with
  | nil =>
    intro r0 rest f hf hp0 _
    obtain ⟨g, rfl⟩ : ∃ g, f = g + 1 := ⟨f - 1, by omega⟩
    obtain ⟨g', rfl⟩ : ∃ g', g = g' + 1 := ⟨g - 1, by omega⟩
    simp only [dumpsStrListTail, List.nil_append]
    rw [dumpsStr_append, escapeAll_plain hp0]
    simp only [parseItems]
    rw [parseVal_str r0 (']' :: rest) g' hp0]
    simp [@skipJsonWs_not_ws ']' rest rfl]
  | cons r1 rs' ih =>
    intro r0 rest f hf hp0 hps
    obtain ⟨g, rfl⟩ : ∃ g, f = g + 1 := ⟨f - 1, by omega⟩
    obtain ⟨g', rfl⟩ : ∃ g', g = g' + 1 := ⟨g - 1, by simp at hf; omega⟩
    simp only [dumpsStrListTail, List.cons_append, List.append_assoc]
    rw [dumpsStr_append, escapeAll_plain hp0]
    rw [parseItems]
    rw [parseVal_str r0
      (',' :: ' ' :: (dumpsStr r1 ++ (dumpsStrListTail rs' ++ ']' :: rest))) g' hp0]
    have hcomma : skipJsonWs
        (',' :: ' ' :: (dumpsStr r1 ++ (dumpsStrListTail rs' ++ ']' :: rest)))
        = ',' :: ' ' :: (dumpsStr r1 ++ (dumpsStrListTail rs' ++ ']' :: rest)) :=
      skipJsonWs_not_ws _ rfl
    have hskip : skipJsonWs (' ' :: (dumpsStr r1 ++ (dumpsStrListTail rs' ++ ']' :: rest)))
        = dumpsStr r1 ++ (dumpsStrListTail rs' ++ ']' :: rest) := by
      rw [skipJsonWs_space, dumpsStr_append]
      exact skipJsonWs_not_ws _ rfl
    have hrec := ih r1 rest (g' + 1) (by simp at hf ⊢; omega)
      (hps r1 (List.mem_cons_self r1 rs'))
      (fun r hr => hps r (List.mem_cons_of_mem r1 hr))
    simp only [hcomma, hskip]
    rw [hrec]
    simp

/-- Parsing back the stored `recipients` text recovers the list exactly and
in order. -/
lemma jsonLoads_dumpsStrList (rs : List (List Char))
    (hp : ∀ r ∈ rs, ∀ c ∈ r, plainChar c = true) :
    jsonLoads (dumpsStrList rs) = some (Json.arr (rs.map Json.str)) := by
  cases rs with
  | nil => rfl
  | cons r0 rs' =>
    have hp0 := hp r0 (List.mem_cons_self r0 rs')
    have hlen1 := dumpsStrListTail_length rs'
    unfold jsonLoads
    simp only [dumpsStrList]
    have e1 : ((('[' : Char) :: (dumpsStr r0 ++ dumpsStrListTail rs')) ++ [']'] : List Char)
        = '[' :: ('"' :: (r0 ++ '"' :: (dumpsStrListTail rs' ++ [']']))) := by
      rw [List.cons_append, List.append_assoc, dumpsStr_append, escapeAll_plain hp0]
    rw [e1]
    have hsk0 : skipJsonWs
        ('[' :: ('"' :: (r0 ++ '"' :: (dumpsStrListTail rs' ++ [']']))))
        = '[' :: ('"' :: (r0 ++ '"' :: (dumpsStrListTail rs' ++ [']']))) :=
      skipJsonWs_not_ws _ rfl
    rw [hsk0]
    generalize hLL :
      (('[' : Char) :: ('"' :: (r0 ++ '"' :: (dumpsStrListTail rs' ++ [']'])))).length = LL
    have efuel : 2 * LL + 2 = (2 * LL + 1) + 1 := rfl
    rw [efuel, parseVal]
    have hsk1 : skipJsonWs ('"' :: (r0 ++ '"' :: (dumpsStrListTail rs' ++ [']'])))
        = '"' :: (r0 ++ '"' :: (dumpsStrListTail rs' ++ [']'])) :=
      skipJsonWs_not_ws _ rfl
    have hitems := parseItems_strings rs' r0 [] (2 * LL + 1)
      (by
        rw [← hLL]
        simp only [List.length_cons, List.length_append]
        omega)
      hp0 (fun r hr => hp r (List.mem_cons_of_mem r0 hr))
    rw [dumpsStr_append, escapeAll_plain hp0] at hitems
    have hnil : skipJsonWs ([] : List Char) = [] := rfl
    simp [hsk1, hitems, hnil]

/-- C5: saving a thread and reading it back by its thread id yields the saved
record — purpose and tone equal the Brief's fields unmodified, and the stored
recipients text deserializes to exactly the Brief's recipients, in order.
The store hypothesis says every row's `id` equals its `thread_id` for the
saved id, which holds of every store reachable through `save_email`. -/
theorem c5_save_roundtrip (db : List Row) (tid : List Char) (brief : EmailBrief)
    (subject draft status : List Char) (now : Nat)
    (hplain : ∀ r ∈ brief.recipients, ∀ c ∈ r, plainChar c = true)
    (hcoh : ∀ r ∈ db, r.thread_id = tid → r.id = tid) :
    getThreadById (saveEmail db tid brief subject draft status now) tid
        = some { id := tid
                 thread_id := tid
                 recipients := dumpsStrList brief.recipients
                 subject := subject
                 purpose := brief.purpose
                 tone := brief.tone
                 draft := draft
                 final_email := none
                 status := status
                 created_at := now
                 updated_at := now }
      ∧ jsonLoads (dumpsStrList brief.recipients)
          = some (Json.arr (brief.recipients.map Json.str)) := by
  constructor
  · unfold getThreadById saveEmail
    rw [List.filter_append]
    have h1 : ((db.filter fun r => r.id ≠ tid).filter fun r => r.thread_id = tid) = [] := by
      rw [List.filter_eq_nil_iff]
      intro r hr
      simp only [List.mem_filter, decide_eq_true_eq] at hr
      simp only [decide_eq_true_eq]
      intro ht
      exact hr.2 (hcoh r hr.1 ht)
    rw [h1]
    simp
  · exact jsonLoads_dumpsStrList brief.recipients hplain

/-- Witness for C5 at a concrete brief and empty store. -/
theorem c5_save_roundtrip_witness :
    getThreadById
        (saveEmail [] "t1".data
          ⟨["a@x.com".data], "p".data, "professional".data, none⟩
          "s".data "d".data "draft".data 5)
        "t1".data
        = some { id := "t1".data
                 thread_id := "t1".data
                 recipients := dumpsStrList ["a@x.com".data]
                 subject := "s".data
                 purpose := "p".data
                 tone := "professional".data
                 draft := "d".data
                 final_email := none
                 status := "draft".data
                 created_at := 5
                 updated_at := 5 }
      ∧ jsonLoads (dumpsStrList ["a@x.com".data])
          = some (Json.arr (["a@x.com".data].map Json.str)) :=
  c5_save_roundtrip [] "t1".data ⟨["a@x.com".data], "p".data, "professional".data, none⟩
    "s".data "d".data "draft".data 5 (by decide) (by simp)

end EmailSender
